import Mathlib

/-!
# Verification of `gulp-gh-pages` (src/index.js)

A shallow embedding of the plugin exported by `src/index.js`:

* option resolution (`module.exports` head, including the string shorthand
  and the JavaScript truthiness of `||` defaults),
* the streaming collector `collectFileName`,
* the `task` pipeline, modelled as the sequence of repository operations it
  issues (an `Op` trace) against an environment describing the repository
  state (`repo._localBranches`, `repo._remoteBranches`, `repo._staged`) and
  which operations succeed.

The git collaborator `./lib/git` is not part of the repository sources; its
observable interface (the fields read by `index.js` and the operations
invoked) is taken from `index.js` itself, and where a claim needs the
collaborator's semantics (the effect of `removeFiles`/`addFiles` on the
working tree, `Date#toISOString`) the model follows the specification and is
marked `Modelled from the spec:`.
-/

/-- Content of a vinyl file flowing into the plugin's stream: `file.isNull()`,
`file.isStream()`, or a fully materialized buffer (the remaining case in
`collectFileName`). -/
inductive VContent
  | null
  | stream
  | buffer
  deriving DecidableEq, Repr

/-- A vinyl file: a relative path plus its content kind. -/
structure VFile where
  path : String
  content : VContent
  deriving DecidableEq, Repr

/-- The raw options object accepted by `module.exports`: every field except
`remoteUrl` may be absent (`undefined`). -/
structure RawOptions where
  remoteUrl : String
  origin : Option String
  branch : Option String
  cacheDir : Option String
  push : Option Bool
  deriving DecidableEq, Repr

/-- The first argument of `module.exports`: either a bare remote-url string
(shorthand form) or an options object. -/
inductive OptionsArg
  | str (remoteUrl : String)
  | obj (o : RawOptions)
  deriving DecidableEq, Repr

/-- Resolved configuration, as computed at the head of `module.exports`. -/
structure Config where
  remoteUrl : String
  origin : String
  branch : String
  cacheDir : Option String
  push : Bool
  deriving DecidableEq, Repr

/-- JavaScript `x || d` on an optional string: `undefined` and the empty
string are falsy, any other string is truthy. -/
def jsOrStr (x : Option String) (d : String) : String :=
  match x with
  | none => d
  | some s => if s = "" then d else s

/-- JavaScript string truthiness of an optional string (`if (cacheDir)`). -/
def jsTruthy (x : Option String) : Bool :=
  match x with
  | none => false
  | some s => s ≠ ""

/-- Option resolution from the head of `module.exports`:
`if (typeof options === "string") { options = {remoteUrl: options}; options.origin = remote }`,
then `origin = options.origin || 'origin'`, `branch = options.branch || 'gh-pages'`,
`cacheDir = options.cacheDir`, `push = options.push === undefined ? true : options.push`. -/
def resolveOptions (options : OptionsArg) (remote : Option String) : Config :=
  match options with
  | .str u =>
      { remoteUrl := u
        origin := jsOrStr remote "origin"
        branch := "gh-pages"
        cacheDir := none
        push := true }
  | .obj o =>
      { remoteUrl := o.remoteUrl
        origin := jsOrStr o.origin "origin"
        branch := jsOrStr o.branch "gh-pages"
        cacheDir := o.cacheDir
        push := o.push.getD true }

/-- State accumulated by the streaming collector: the files pushed
downstream, the error messages emitted, and `filePaths` (the collected
artifact list). -/
structure CollectState where
  pushed : List VFile
  errors : List String
  filePaths : List VFile
  deriving DecidableEq, Repr

/-- One call of `collectFileName (file, enc, callback)`:
a null file is pushed downstream and not collected; a stream file makes the
collector emit `PluginError("gulp-gh-pages", "Stream content is not
supported")` and is neither pushed nor collected; any other file is appended
to `filePaths`. -/
def collectFileName (s : CollectState) (f : VFile) : CollectState :=
  match f.content with
  | .null => { s with pushed := s.pushed ++ [f] }
  | .stream => { s with errors := s.errors ++ ["Stream content is not supported"] }
  | .buffer => { s with filePaths := s.filePaths ++ [f] }

/-- Running the collector over the whole input sequence. -/
def collectAll (files : List VFile) : CollectState :=
  files.foldl collectFileName ⟨[], [], []⟩

/-- A repository/filesystem operation issued by `task`, in the order the
pipeline issues them. `writeFile` records one file written by the temporary
stream piped into `gulp.dest(cacheDir)`; its first argument is the raw
destination argument handed to `gulp.dest` (the unresolved `cacheDir`
variable, which is `none`/`undefined` when no cache directory was given). -/
inductive Op
  | prepareRepo (remoteUrl : String) (cacheDir : Option String)
  | checkoutBranch (name : String)
  | createAndCheckoutBranch (name : String)
  | pull
  | removeFiles (path : String) (recursive : Bool)
  | writeFile (dest : Option String) (path : String)
  | addFiles (path : String)
  | commit (message : String)
  | push (origin : String)
  deriving DecidableEq, Repr

/-- The repository state observed by `task` through the handle returned by
`git.prepareRepo`: the branch lists read in the checkout decision, the size
of `repo._staged` after `addFiles('.')`, and which operations succeed (their
promises resolve) when issued. -/
structure RepoEnv where
  localBranches : List String
  remoteBranches : List String
  stagedCount : Nat
  opOk : Op → Bool

/-- The branch-resolution step of `task`: checkout if
`repo._localBranches.indexOf(branch) > -1`, else checkout if
`repo._remoteBranches.indexOf(origin + '/' + branch) > -1`, else create and
checkout. -/
def branchOps (cfg : Config) (env : RepoEnv) : List Op :=
  if env.localBranches.contains cfg.branch then
    [Op.checkoutBranch cfg.branch]
  else if env.remoteBranches.contains (cfg.origin ++ "/" ++ cfg.branch) then
    [Op.checkoutBranch cfg.branch]
  else
    [Op.createAndCheckoutBranch cfg.branch]

/-- The sequence of operations `task` issues when every issued operation
succeeds, given the resolved configuration, the collected `filePaths`, the
repository environment and the commit-time timestamp string
(`new Date().toISOString()` evaluated at the commit step).
`if (filePaths.length === 0) return callback();` short-circuits everything;
otherwise: `prepareRepo`, the branch resolution, `pull` iff `cacheDir` is
truthy, `removeFiles('.', {r: true})`, one `gulp.dest(cacheDir)` write per
collected file, `addFiles('.')`, and — iff `Object.keys(repo._staged).length`
is nonzero — one `commit('Update ' + timestamp)` followed by `push(origin)`
iff the `push` option is set. -/
def taskTrace (cfg : Config) (filePaths : List VFile) (env : RepoEnv)
    (now : String) : List Op :=
  if filePaths.length = 0 then []
  else
    Op.prepareRepo cfg.remoteUrl cfg.cacheDir ::
    (branchOps cfg env ++
      (if jsTruthy cfg.cacheDir then [Op.pull] else []) ++
      [Op.removeFiles "." true] ++
      filePaths.map (fun f => Op.writeFile cfg.cacheDir f.path) ++
      [Op.addFiles "."] ++
      (if env.stagedCount = 0 then []
       else
         Op.commit ("Update " ++ now) ::
           (if cfg.push then [Op.push cfg.origin] else [])))

/-- Sequential execution of a planned operation list: each operation is
issued in order; the first one whose promise rejects aborts the remainder
(the `.done` failure handler throws), otherwise the run completes and
`callback()` is invoked. Returns the executed prefix on success. -/
def runOps (env : RepoEnv) (acc : List Op) : List Op → Except Op (List Op)
  | [] => .ok acc
  | op :: rest =>
      if env.opOk op then runOps env (acc ++ [op]) rest
      else .error op

/-- A full run of `task`: empty `filePaths` invokes `callback()` at once with
no operation issued; otherwise the planned operations execute sequentially. -/
def taskRun (cfg : Config) (filePaths : List VFile) (env : RepoEnv)
    (now : String) : Except Op (List Op) :=
  runOps env [] (taskTrace cfg filePaths env now)

/-- Number of `commit` operations in a trace. -/
def commitCount (tr : List Op) : Nat :=
  tr.countP fun op => match op with | Op.commit _ => true | _ => false

/-- Number of `push` operations in a trace. -/
def pushCount (tr : List Op) : Nat :=
  tr.countP fun op => match op with | Op.push _ => true | _ => false

/-- Modelled from the spec: a UTC calendar time, the information rendered by
the JavaScript platform builtin `Date.prototype.toISOString` (which is not
part of this repository). `task` reads the clock once, at the commit step. -/
@[ext]
structure UTCTime where
  year : Nat
  month : Nat
  day : Nat
  hour : Nat
  minute : Nat
  second : Nat
  ms : Nat
  deriving DecidableEq, Repr

/-- A well-formed clock reading in the four-digit-year range rendered by
`toISOString` without the expanded-year format. -/
def validTime (t : UTCTime) : Prop :=
  t.year ≤ 9999 ∧ 1 ≤ t.month ∧ t.month ≤ 12 ∧ 1 ≤ t.day ∧ t.day ≤ 31 ∧
    t.hour ≤ 23 ∧ t.minute ≤ 59 ∧ t.second ≤ 59 ∧ t.ms ≤ 999

instance (t : UTCTime) : Decidable (validTime t) := by
  unfold validTime; infer_instance

/-- A linearization of `UTCTime` that is strictly monotone in real time on
well-formed readings; used to compare clock readings. -/
def timeKey (t : UTCTime) : Nat :=
  (((((t.year * 13 + t.month) * 32 + t.day) * 24 + t.hour) * 60 + t.minute)
      * 60 + t.second) * 1000 + t.ms

/-- Two decimal digits, zero-padded, as characters. -/
def pad2 (n : Nat) : List Char :=
  [Nat.digitChar (n / 10 % 10), Nat.digitChar (n % 10)]

/-- Three decimal digits, zero-padded, as characters. -/
def pad3 (n : Nat) : List Char :=
  [Nat.digitChar (n / 100 % 10), Nat.digitChar (n / 10 % 10),
   Nat.digitChar (n % 10)]

/-- Four decimal digits, zero-padded, as characters. -/
def pad4 (n : Nat) : List Char :=
  [Nat.digitChar (n / 1000 % 10), Nat.digitChar (n / 100 % 10),
   Nat.digitChar (n / 10 % 10), Nat.digitChar (n % 10)]

/-- Modelled from the spec: `Date.prototype.toISOString` (ECMAScript builtin,
not repository code) — the 24-character simplified ISO-8601 UTC form
`YYYY-MM-DDTHH:mm:ss.sssZ` for four-digit years. -/
def toISOString (t : UTCTime) : String :=
  String.mk (pad4 t.year ++ '-' :: pad2 t.month ++ '-' :: pad2 t.day ++
    'T' :: pad2 t.hour ++ ':' :: pad2 t.minute ++ ':' :: pad2 t.second ++
    '.' :: pad3 t.ms ++ ['Z'])

/-- Numeric value of a decimal digit character. -/
def digitVal (c : Char) : Nat := c.toNat - 48

/-- Calendar reading decoded from the seventeen digit characters of a
24-character ISO-8601 UTC timestamp. -/
def decodeISO (y1 y2 y3 y4 m1 m2 d1 d2 h1 h2 n1 n2 s1 s2 f1 f2 f3 : Char) :
    UTCTime :=
  { year := ((digitVal y1 * 10 + digitVal y2) * 10 + digitVal y3) * 10 +
      digitVal y4
    month := digitVal m1 * 10 + digitVal m2
    day := digitVal d1 * 10 + digitVal d2
    hour := digitVal h1 * 10 + digitVal h2
    minute := digitVal n1 * 10 + digitVal n2
    second := digitVal s1 * 10 + digitVal s2
    ms := (digitVal f1 * 10 + digitVal f2) * 10 + digitVal f3 }

/-- Parser for the 24-character simplified ISO-8601 UTC timestamp form:
accepts exactly strings `YYYY-MM-DDTHH:mm:ss.sssZ` whose fields are decimal
digits in the ranges of `validTime`, and returns the parsed reading. -/
def parseISO (s : String) : Option UTCTime :=
  match s.data with
  | [y1, y2, y3, y4, a1, m1, m2, a2, d1, d2, a3, h1, h2, a4, n1, n2, a5,
     s1, s2, a6, f1, f2, f3, a7] =>
      if a1 = '-' ∧ a2 = '-' ∧ a3 = 'T' ∧ a4 = ':' ∧ a5 = ':' ∧ a6 = '.' ∧
          a7 = 'Z' ∧ y1.isDigit ∧ y2.isDigit ∧ y3.isDigit ∧ y4.isDigit ∧
          m1.isDigit ∧ m2.isDigit ∧ d1.isDigit ∧ d2.isDigit ∧
          h1.isDigit ∧ h2.isDigit ∧ n1.isDigit ∧ n2.isDigit ∧
          s1.isDigit ∧ s2.isDigit ∧ f1.isDigit ∧ f2.isDigit ∧ f3.isDigit then
        if validTime (decodeISO y1 y2 y3 y4 m1 m2 d1 d2 h1 h2 n1 n2 s1 s2
            f1 f2 f3) then
          some (decodeISO y1 y2 y3 y4 m1 m2 d1 d2 h1 h2 n1 n2 s1 s2 f1 f2 f3)
        else none
      else none
  | _ => none

/-- A string is a valid (simplified, four-digit-year) ISO-8601 UTC timestamp
when the parser accepts it. -/
def isValidISO (s : String) : Bool :=
  (parseISO s).isSome

/-- Modelled from the spec: the working copy and the tracked-file set, as
acted on by the operations `task` issues. `removeFiles(path, {r: true})`
stages deletion of everything under the path (the `.git` metadata directory
is outside the modelled tree); a write into the working-copy root adds the
file's relative path to the tree (overwriting keeps the path present);
`addFiles('.')` stages the whole tree, making it the tracked set. Operations
addressed at other destinations do not touch the working copy. -/
structure FsState where
  tree : List String
  tracked : List String
  deriving DecidableEq, Repr

/-- Effect of one operation on the working copy rooted at `root`. -/
def applyOp (root : String) (s : FsState) (op : Op) : FsState :=
  match op with
  | Op.removeFiles _ true => { s with tree := [] }
  | Op.writeFile d p =>
      if d = some root then { s with tree := s.tree.insert p } else s
  | Op.addFiles _ => { s with tracked := s.tree }
  | _ => s

/-- Effect of a whole operation trace on the working copy. -/
def runFs (root : String) (s : FsState) (tr : List Op) : FsState :=
  tr.foldl (applyOp root) s

/-- The Unix epoch as a clock reading. -/
def epochTime : UTCTime := ⟨1970, 1, 1, 0, 0, 0, 0⟩

/-- C3 as stated: in every run, `pull` is issued if and only if the options
carried a cache directory. -/
def pullIffCacheDirSupplied : Prop :=
  ∀ (cfg : Config) (fps : List VFile) (env : RepoEnv) (now : String),
    Op.pull ∈ taskTrace cfg fps env now ↔ cfg.cacheDir.isSome = true

/-- C5 as stated: in every non-empty-staged run (under a weakly monotone
millisecond clock, so the commit-time reading is at or after the run start),
exactly one commit is created and its message is `"Update "` followed by a
valid ISO-8601 UTC timestamp strictly greater than the run's start time. -/
def commitMsgStrictlyAfterStart : Prop :=
  ∀ (cfg : Config) (fps : List VFile) (env : RepoEnv) (start nowT : UTCTime),
    validTime start → validTime nowT → timeKey start ≤ timeKey nowT →
    fps.length ≠ 0 → env.stagedCount ≠ 0 →
    commitCount (taskTrace cfg fps env (toISOString nowT)) = 1 ∧
    ∀ msg, Op.commit msg ∈ taskTrace cfg fps env (toISOString nowT) →
      msg.take 7 = "Update " ∧
      ∃ t : UTCTime, parseISO (msg.drop 7) = some t ∧
        timeKey start < timeKey t

theorem digitChar_isDigit {r : Nat} (h : r < 10) :
    (Nat.digitChar r).isDigit = true := by
  interval_cases r <;> decide

theorem digitVal_digitChar {r : Nat} (h : r < 10) :
    digitVal (Nat.digitChar r) = r := by
  interval_cases r <;> decide

theorem parseISO_toISOString {t : UTCTime} (h : validTime t) :
    parseISO (toISOString t) = some t := by
  have mod10 : ∀ n : Nat, n % 10 < 10 := fun n => Nat.mod_lt _ (by norm_num)
  have dv : ∀ n : Nat, digitVal (Nat.digitChar (n % 10)) = n % 10 :=
    fun n => digitVal_digitChar (mod10 n)
  obtain ⟨Y, M, D, H, Mi, S, F⟩ := t
  simp only [validTime] at h
  obtain ⟨hy, hm1, hm2, hd1, hd2, hh, hn, hs, hf⟩ := h
  simp only [toISOString, pad4, pad3, pad2, parseISO, List.cons_append,
    List.nil_append, decodeISO, dv]
  rw [if_pos, if_pos]
  · simp only [Option.some.injEq]
    ext <;> simp only <;> omega
  · simp only [validTime]
    refine ⟨?_, ?_, ?_, ?_, ?_, ?_, ?_, ?_, ?_⟩ <;> omega
  · refine ⟨?_, ?_, ?_, ?_, ?_, ?_, ?_, ?_, ?_, ?_, ?_, ?_, ?_, ?_,
      ?_, ?_, ?_, ?_, ?_, ?_, ?_, ?_, ?_, ?_⟩ <;>
      first
        | trivial
        | exact digitChar_isDigit (mod10 _)

theorem runFs_append (root : String) (s : FsState) (l1 l2 : List Op) :
    runFs root s (l1 ++ l2) = runFs root (runFs root s l1) l2 :=
  List.foldl_append _ _ _ _

theorem runFs_writes (root : String) (fps : List VFile) (s : FsState) :
    runFs root s (fps.map fun f => Op.writeFile (some root) f.path) =
      { tree := fps.foldl (fun tr f => tr.insert f.path) s.tree,
        tracked := s.tracked } := by
  induction fps generalizing s with
  | nil => rfl
  | cons f rest ih =>
      have step : applyOp root s (Op.writeFile (some root) f.path) =
          { s with tree := s.tree.insert f.path } := by simp [applyOp]
      simp only [List.map_cons, runFs, List.foldl_cons, step]
      exact ih { s with tree := s.tree.insert f.path }

theorem runFs_writes_other (root : String) (d : Option String)
    (hd : d ≠ some root) (fps : List VFile) (s : FsState) :
    runFs root s (fps.map fun f => Op.writeFile d f.path) = s := by
  induction fps generalizing s with
  | nil => rfl
  | cons f rest ih =>
      have step : applyOp root s (Op.writeFile d f.path) = s := by
        simp [applyOp, hd]
      simp only [List.map_cons, runFs, List.foldl_cons, step]
      exact ih s

theorem foldl_insert_mem (fps : List VFile) (tr : List String) (q : String) :
    q ∈ fps.foldl (fun tr f => tr.insert f.path) tr ↔
      q ∈ fps.map VFile.path ∨ q ∈ tr := by
  induction fps generalizing tr with
  | nil => simp
  | cons f rest ih =>
      simp only [List.foldl_cons, List.map_cons, List.mem_cons, ih,
        List.mem_insert_iff]
      tauto

/-- Running a planned operation list in an environment where every listed
operation succeeds completes the run and executes the whole plan. -/
theorem runOps_ok (env : RepoEnv) (l : List Op) (acc : List Op)
    (h : ∀ op ∈ l, env.opOk op = true) :
    runOps env acc l = .ok (acc ++ l) := by
  induction l generalizing acc with
  | nil => simp [runOps]
  | cons op rest ih =>
      rw [runOps, if_pos (h op (by simp))]
      rw [ih _ (fun o ho => h o (by simp [ho]))]
      simp

/-- Closed form of the collector run from an arbitrary accumulated state:
null files are forwarded downstream, stream files each emit the
unsupported-content error, buffer files are collected into `filePaths`. -/
theorem foldl_collect (files : List VFile) (s : CollectState) :
    files.foldl collectFileName s =
      ⟨s.pushed ++ files.filter (fun f => f.content == VContent.null),
       s.errors ++ (files.filter
         (fun f => f.content == VContent.stream)).map
           (fun _ => "Stream content is not supported"),
       s.filePaths ++ files.filter (fun f => f.content == VContent.buffer)⟩ := by
  induction files generalizing s with
  | nil => simp
  | cons f rest ih =>
      obtain ⟨p, e, fp⟩ := s
      cases hc : f.content <;>
        simp [collectFileName, hc, ih]

/-- Shape of every non-empty run: `git.prepareRepo` first, then the branch
resolution, then the rest of the pipeline. -/
theorem taskTrace_shape (cfg : Config) (fps : List VFile) (env : RepoEnv)
    (now : String) (h : fps.length ≠ 0) :
    ∃ rest, taskTrace cfg fps env now =
      Op.prepareRepo cfg.remoteUrl cfg.cacheDir ::
        (branchOps cfg env ++ rest) := by
  rw [taskTrace, if_neg h]
  refine ⟨(if jsTruthy cfg.cacheDir then [Op.pull] else []) ++
    [Op.removeFiles "." true] ++
    fps.map (fun f => Op.writeFile cfg.cacheDir f.path) ++
    [Op.addFiles "."] ++
    (if env.stagedCount = 0 then []
     else Op.commit ("Update " ++ now) ::
       (if cfg.push then [Op.push cfg.origin] else [])), ?_⟩
  simp [List.append_assoc]

/-- C1: a run whose collected artifact list is empty issues no repository or
branch operation (its operation trace is empty) and completes successfully
at once (`if (filePaths.length === 0) return callback();`). -/
theorem empty_run_no_ops_success (cfg : Config) (env : RepoEnv)
    (now : String) :
    taskRun cfg [] env now = .ok [] ∧ taskTrace cfg [] env now = [] :=
  ⟨rfl, rfl⟩

/-- C2: after `prepareRepo`, the second operation of every non-empty run
resolves the branch in priority order: `checkoutBranch` if the target is in
the local branch list, else `checkoutBranch` if `origin/branch` (with the
configured origin name) is in the remote branch list, else
`createAndCheckoutBranch`. -/
theorem branch_resolution_priority (cfg : Config) (fps : List VFile)
    (env : RepoEnv) (now : String) (h : fps.length ≠ 0) :
    (cfg.branch ∈ env.localBranches →
      ∃ rest, taskTrace cfg fps env now =
        Op.prepareRepo cfg.remoteUrl cfg.cacheDir ::
          Op.checkoutBranch cfg.branch :: rest) ∧
    (cfg.branch ∉ env.localBranches →
      cfg.origin ++ "/" ++ cfg.branch ∈ env.remoteBranches →
      ∃ rest, taskTrace cfg fps env now =
        Op.prepareRepo cfg.remoteUrl cfg.cacheDir ::
          Op.checkoutBranch cfg.branch :: rest) ∧
    (cfg.branch ∉ env.localBranches →
      cfg.origin ++ "/" ++ cfg.branch ∉ env.remoteBranches →
      ∃ rest, taskTrace cfg fps env now =
        Op.prepareRepo cfg.remoteUrl cfg.cacheDir ::
          Op.createAndCheckoutBranch cfg.branch :: rest) := by
  obtain ⟨rest, hr⟩ := taskTrace_shape cfg fps env now h
  refine ⟨fun h1 => ⟨rest, ?_⟩, fun h1 h2 => ⟨rest, ?_⟩,
    fun h1 h2 => ⟨rest, ?_⟩⟩
  · rw [hr]; simp [branchOps, h1]
  · rw [hr]; simp [branchOps, h1, h2]
  · rw [hr]; simp [branchOps, h1, h2]

/-- C2 witness: a concrete run against a repository whose local branch list
contains the target branch. -/
theorem branch_resolution_priority_witness :
    ∃ rest,
      taskTrace ⟨"u", "origin", "gh-pages", none, true⟩
        [⟨"index.html", VContent.buffer⟩]
        ⟨["gh-pages"], [], 1, fun _ => true⟩ "TS" =
      Op.prepareRepo "u" none :: Op.checkoutBranch "gh-pages" :: rest :=
  (branch_resolution_priority ⟨"u", "origin", "gh-pages", none, true⟩
    [⟨"index.html", VContent.buffer⟩] ⟨["gh-pages"], [], 1, fun _ => true⟩
    "TS" (by decide)).1 (by decide)

/-- C3 counterexample: a run with a supplied cache directory but an empty
collected artifact list short-circuits before the pipeline, so `pull` is not
issued even though `cacheDir` is present. -/
theorem pullIffCacheDirSupplied_false : ¬ pullIffCacheDirSupplied := fun h =>
  absurd ((h ⟨"u", "origin", "gh-pages", some "/cache", true⟩ []
    ⟨[], [], 0, fun _ => true⟩ "TS").2 rfl) (by decide)

/-- C3 amended: in every run whose collected artifact list is non-empty,
`pull` is issued if and only if the options carried a truthy (non-empty)
cache directory string (`if (cacheDir)`); without one the sync step is
skipped. -/
theorem pull_iff_cacheDir (cfg : Config) (fps : List VFile) (env : RepoEnv)
    (now : String) (h : fps.length ≠ 0) :
    Op.pull ∈ taskTrace cfg fps env now ↔ jsTruthy cfg.cacheDir = true := by
  rw [taskTrace, if_neg h]
  simp only [branchOps]
  split_ifs <;> simp_all

/-- C3 amended witness: with a non-empty cache directory and one artifact,
`pull` appears in the trace. -/
theorem pull_iff_cacheDir_witness :
    Op.pull ∈ taskTrace ⟨"u", "origin", "gh-pages", some "/cache", true⟩
      [⟨"a.html", VContent.buffer⟩] ⟨[], [], 0, fun _ => true⟩ "TS" :=
  (pull_iff_cacheDir ⟨"u", "origin", "gh-pages", some "/cache", true⟩
    [⟨"a.html", VContent.buffer⟩] ⟨[], [], 0, fun _ => true⟩ "TS"
    (by decide)).2 (by decide)

/-- C4: when `Object.keys(repo._staged).length` is zero after `addFiles`,
the run creates no commit and performs no push, and (when every operation it
does issue succeeds) still completes successfully. -/
theorem empty_staged_skips_commit_and_push (cfg : Config) (fps : List VFile)
    (env : RepoEnv) (now : String) (hstaged : env.stagedCount = 0)
    (hok : ∀ op ∈ taskTrace cfg fps env now, env.opOk op = true) :
    taskRun cfg fps env now = .ok (taskTrace cfg fps env now) ∧
    (∀ m, Op.commit m ∉ taskTrace cfg fps env now) ∧
    (∀ o, Op.push o ∉ taskTrace cfg fps env now) := by
  refine ⟨by rw [taskRun, runOps_ok env _ [] hok, List.nil_append], ?_, ?_⟩ <;>
    intro x hx <;>
    by_cases h0 : fps.length = 0
  · rw [taskTrace, if_pos h0] at hx
    exact absurd hx (List.not_mem_nil _)
  · rw [taskTrace, if_neg h0] at hx
    simp only [branchOps] at hx
    split_ifs at hx <;> simp_all
  · rw [taskTrace, if_pos h0] at hx
    exact absurd hx (List.not_mem_nil _)
  · rw [taskTrace, if_neg h0] at hx
    simp only [branchOps] at hx
    split_ifs at hx <;> simp_all

/-- C4 witness: a concrete run whose staged set is empty completes
successfully with neither a commit nor a push in its trace. -/
theorem empty_staged_skips_commit_and_push_witness :
    taskRun ⟨"u", "origin", "gh-pages", none, true⟩
        [⟨"a.html", VContent.buffer⟩] ⟨[], [], 0, fun _ => true⟩ "TS" =
      .ok (taskTrace ⟨"u", "origin", "gh-pages", none, true⟩
        [⟨"a.html", VContent.buffer⟩] ⟨[], [], 0, fun _ => true⟩ "TS") ∧
    Op.commit "Update TS" ∉ taskTrace ⟨"u", "origin", "gh-pages", none, true⟩
      [⟨"a.html", VContent.buffer⟩] ⟨[], [], 0, fun _ => true⟩ "TS" :=
  have h := empty_staged_skips_commit_and_push
    ⟨"u", "origin", "gh-pages", none, true⟩ [⟨"a.html", VContent.buffer⟩]
    ⟨[], [], 0, fun _ => true⟩ "TS" rfl (by decide)
  ⟨h.1, h.2.1 "Update TS"⟩

/-- C6: with a non-empty staged set, exactly one commit is created; the push
happens directly after the commit, and only when the `push` option (default
`true` when unspecified) is set; with `push=false` there is exactly one
commit and no push. -/
theorem push_gating (cfg : Config) (fps : List VFile) (env : RepoEnv)
    (now : String) (h : fps.length ≠ 0) (hs : env.stagedCount ≠ 0) :
    commitCount (taskTrace cfg fps env now) = 1 ∧
    pushCount (taskTrace cfg fps env now) = (if cfg.push then 1 else 0) ∧
    (cfg.push = true → ∃ pre, taskTrace cfg fps env now =
      pre ++ [Op.commit ("Update " ++ now), Op.push cfg.origin]) ∧
    (cfg.push = false → ∀ o, Op.push o ∉ taskTrace cfg fps env now) ∧
    (∀ (ro : RawOptions) (r : Option String), ro.push = none →
      (resolveOptions (.obj ro) r).push = true) := by
  refine ⟨?_, ?_, fun hp => ?_, fun hp o hx => ?_, fun ro r hro => ?_⟩
  · rw [taskTrace, if_neg h]
    simp only [branchOps]
    split_ifs <;>
      simp_all [commitCount, List.countP_append, List.countP_cons,
        List.countP_map, Function.comp]
  · rw [taskTrace, if_neg h]
    simp only [branchOps]
    split_ifs <;>
      simp_all [pushCount, List.countP_append, List.countP_cons,
        List.countP_map, Function.comp]
  · refine ⟨Op.prepareRepo cfg.remoteUrl cfg.cacheDir ::
      (branchOps cfg env ++
        (if jsTruthy cfg.cacheDir then [Op.pull] else []) ++
        [Op.removeFiles "." true] ++
        fps.map (fun f => Op.writeFile cfg.cacheDir f.path) ++
        [Op.addFiles "."]), ?_⟩
    rw [taskTrace, if_neg h, if_neg hs, hp]
    simp [List.append_assoc]
  · rw [taskTrace, if_neg h] at hx
    simp only [branchOps] at hx
    split_ifs at hx <;> simp_all
  · simp [resolveOptions, hro]

/-- C6 witness: a concrete non-empty staged run creates exactly one
commit. -/
theorem push_gating_witness :
    commitCount (taskTrace ⟨"u", "origin", "gh-pages", none, false⟩
      [⟨"a.html", VContent.buffer⟩] ⟨[], [], 1, fun _ => true⟩ "TS") = 1 :=
  (push_gating ⟨"u", "origin", "gh-pages", none, false⟩
    [⟨"a.html", VContent.buffer⟩] ⟨[], [], 1, fun _ => true⟩ "TS"
    (by decide) (by decide)).1

/-- C7: the collected artifact set consists exactly of the buffer-backed
input files — a streamed file is never collected (so never materialized or
staged) — and each streamed input emits one unsupported-content error. -/
theorem collector_rejects_streams (files : List VFile) :
    (collectAll files).filePaths =
      files.filter (fun f => f.content == VContent.buffer) ∧
    (collectAll files).errors.length =
      files.countP (fun f => f.content == VContent.stream) := by
  rw [collectAll, foldl_collect]
  simp [List.countP_eq_length_filter]

/-- C10: every null-content file of any input is forwarded downstream
unchanged (the forwarded sequence is exactly the null-content inputs, in
order) and excluded from the collected artifact set; consequently an input
consisting only of null files collects an empty `filePaths`, and the run
short-circuits successfully with no repository operation. -/
theorem null_files_forwarded (files : List VFile) (f : VFile) (cfg : Config)
    (env : RepoEnv) (now : String)
    (hf : f ∈ files) (hnull : f.content = VContent.null) :
    (collectAll files).pushed =
      files.filter (fun g => g.content == VContent.null) ∧
    f ∈ (collectAll files).pushed ∧
    f ∉ (collectAll files).filePaths ∧
    ((∀ g ∈ files, g.content = VContent.null) →
      (collectAll files).pushed = files ∧
      (collectAll files).filePaths = [] ∧
      taskRun cfg (collectAll files).filePaths env now = .ok [] ∧
      taskTrace cfg (collectAll files).filePaths env now = []) := by
  have hpushed : (collectAll files).pushed =
      files.filter (fun g => g.content == VContent.null) := by
    rw [collectAll, foldl_collect]
    simp
  refine ⟨hpushed, ?_, ?_, fun hall => ?_⟩
  · rw [hpushed, List.mem_filter]
    exact ⟨hf, by simp [hnull]⟩
  · intro hx
    rw [collectAll, foldl_collect] at hx
    simp only [List.nil_append, List.mem_filter] at hx
    rw [hnull] at hx
    exact absurd hx.2 (by decide)
  · have hfp : (collectAll files).filePaths = [] := by
      rw [collectAll, foldl_collect]
      simp only [List.nil_append]
      rw [List.filter_eq_nil_iff]
      intro g hg
      simp [hall g hg]
    refine ⟨?_, hfp, by rw [hfp]; rfl, by rw [hfp]; rfl⟩
    rw [hpushed, List.filter_eq_self]
    intro g hg
    simp [hall g hg]

/-- C10 witness: in a mixed all-null input, the null file `a.html` is
forwarded and not collected, and since every file is null the run performs
no operation and succeeds. -/
theorem null_files_forwarded_witness :
    (⟨"a.html", VContent.null⟩ : VFile) ∈
      (collectAll [⟨"a.html", VContent.null⟩,
        ⟨"b.html", VContent.null⟩]).pushed ∧
    (⟨"a.html", VContent.null⟩ : VFile) ∉
      (collectAll [⟨"a.html", VContent.null⟩,
        ⟨"b.html", VContent.null⟩]).filePaths ∧
    taskRun ⟨"u", "origin", "gh-pages", none, true⟩
      (collectAll [⟨"a.html", VContent.null⟩,
        ⟨"b.html", VContent.null⟩]).filePaths
      ⟨[], [], 0, fun _ => true⟩ "TS" = .ok [] :=
  have h := null_files_forwarded
    [⟨"a.html", VContent.null⟩, ⟨"b.html", VContent.null⟩]
    ⟨"a.html", VContent.null⟩ ⟨"u", "origin", "gh-pages", none, true⟩
    ⟨[], [], 0, fun _ => true⟩ "TS" (by decide) rfl
  ⟨h.2.1, h.2.2.1, (h.2.2.2 (by decide)).2.2.1⟩

/-- C8: evaluation at the failing input — options without `cacheDir`
(ephemeral clone) and one artifact. Every write of the run hands
`gulp.dest` the raw `cacheDir` value, which is `undefined`/`none`; no write
is addressed at any concrete directory, so in particular none is addressed
at the temporary directory `git.prepareRepo` clones into, contradicting the
plugin's own doc comment (`cacheDir ... default to a temporary folder`). -/
theorem ephemeral_writes_have_no_destination :
    (resolveOptions
      (.obj ⟨"git@github.com:u/r.git", none, none, none, none⟩)
      none).cacheDir = none ∧
    taskTrace (resolveOptions
        (.obj ⟨"git@github.com:u/r.git", none, none, none, none⟩) none)
      [⟨"index.html", VContent.buffer⟩] ⟨[], [], 1, fun _ => true⟩ "TS" =
      [Op.prepareRepo "git@github.com:u/r.git" none,
       Op.createAndCheckoutBranch "gh-pages",
       Op.removeFiles "." true,
       Op.writeFile none "index.html",
       Op.addFiles ".",
       Op.commit "Update TS",
       Op.push "origin"] ∧
    (∀ d p, Op.writeFile d p ∈ taskTrace (resolveOptions
        (.obj ⟨"git@github.com:u/r.git", none, none, none, none⟩) none)
      [⟨"index.html", VContent.buffer⟩] ⟨[], [], 1, fun _ => true⟩ "TS" →
      d = none) := by
  refine ⟨rfl, by decide, ?_⟩
  intro d p hx
  rw [show taskTrace (resolveOptions
      (.obj ⟨"git@github.com:u/r.git", none, none, none, none⟩) none)
      [⟨"index.html", VContent.buffer⟩] ⟨[], [], 1, fun _ => true⟩ "TS" =
      [Op.prepareRepo "git@github.com:u/r.git" none,
       Op.createAndCheckoutBranch "gh-pages",
       Op.removeFiles "." true,
       Op.writeFile none "index.html",
       Op.addFiles ".",
       Op.commit "Update TS",
       Op.push "origin"] from by decide] at hx
  simp at hx
  exact hx.1

/-- C9: in every non-empty run the recursive removal precedes every artifact
write and the `addFiles` staging; consequently, whatever root the working
copy has and whatever its prior state was, any file of a previous deployment
that is not among the new artifact paths is neither in the working tree nor
tracked after the run. -/
theorem clear_before_write_and_stage (cfg : Config) (fps : List VFile)
    (env : RepoEnv) (now : String) (root : String)
    (h : fps.length ≠ 0) :
    (∃ l1 l2, taskTrace cfg fps env now =
        l1 ++ Op.removeFiles "." true :: l2 ∧
      (∀ d p, Op.writeFile d p ∉ l1) ∧ Op.addFiles "." ∉ l1) ∧
    (∀ (s : FsState) (q : String), q ∉ fps.map VFile.path →
      q ∉ (runFs root s (taskTrace cfg fps env now)).tree ∧
      q ∉ (runFs root s (taskTrace cfg fps env now)).tracked) := by
  constructor
  · refine ⟨Op.prepareRepo cfg.remoteUrl cfg.cacheDir ::
      (branchOps cfg env ++
        (if jsTruthy cfg.cacheDir then [Op.pull] else [])),
      fps.map (fun f => Op.writeFile cfg.cacheDir f.path) ++
        [Op.addFiles "."] ++
        (if env.stagedCount = 0 then []
         else Op.commit ("Update " ++ now) ::
           (if cfg.push then [Op.push cfg.origin] else [])), ?_, ?_, ?_⟩
    · rw [taskTrace, if_neg h]
      simp [List.append_assoc]
    · intro d p hx
      simp only [branchOps, List.mem_cons, List.mem_append] at hx
      split_ifs at hx <;> simp_all
    · intro hx
      simp only [branchOps, List.mem_cons, List.mem_append] at hx
      split_ifs at hx <;> simp_all
  · have hcons : ∀ (s : FsState) (op : Op) (l : List Op),
        runFs root s (op :: l) = runFs root (applyOp root s op) l :=
      fun s op l => rfl
    have hA : ∀ s : FsState, runFs root s (branchOps cfg env) = s := by
      intro s
      rw [branchOps]
      split_ifs <;> rfl
    have hB : ∀ (d : Option String) (s : FsState),
        runFs root s (if jsTruthy d then [Op.pull] else []) = s := by
      intro d s
      split_ifs <;> rfl
    have hC : ∀ s : FsState,
        runFs root s (if env.stagedCount = 0 then []
          else Op.commit ("Update " ++ now) ::
            (if cfg.push then [Op.push cfg.origin] else [])) = s := by
      intro s
      split_ifs <;> rfl
    have hR : ∀ s : FsState,
        runFs root s [Op.removeFiles "." true] = { s with tree := [] } :=
      fun s => rfl
    have hAdd : ∀ s : FsState,
        runFs root s [Op.addFiles "."] = { s with tracked := s.tree } :=
      fun s => rfl
    by_cases hd : cfg.cacheDir = some root
    · have hrun : ∀ s : FsState,
          runFs root s (taskTrace cfg fps env now) =
            { tree := fps.foldl (fun tr f => tr.insert f.path) [],
              tracked := fps.foldl (fun tr f => tr.insert f.path) [] } := by
        intro s
        rw [taskTrace, if_neg h, hd, hcons,
          show applyOp root s (Op.prepareRepo cfg.remoteUrl (some root)) = s
            from rfl,
          runFs_append, runFs_append, runFs_append, runFs_append,
          runFs_append, hA, hB, hR, runFs_writes, hAdd, hC]
      intro s q hq
      rw [hrun s]
      simp [foldl_insert_mem, hq]
    · have hrun : ∀ s : FsState,
          runFs root s (taskTrace cfg fps env now) =
            { tree := [], tracked := [] } := by
        intro s
        rw [taskTrace, if_neg h, hcons,
          show applyOp root s (Op.prepareRepo cfg.remoteUrl cfg.cacheDir) = s
            from rfl,
          runFs_append, runFs_append, runFs_append, runFs_append,
          runFs_append, hA, hB, hR, runFs_writes_other root cfg.cacheDir hd,
          hAdd, hC]
      intro s q hq
      rw [hrun s]
      simp

/-- C9 witness: a concrete run with a cache directory: the file `old.html`
of the previous deployment, absent from the new artifact set, is neither in
the tree nor tracked afterwards. -/
theorem clear_before_write_and_stage_witness :
    "old.html" ∉ (runFs "/c" ⟨["old.html"], ["old.html"]⟩
      (taskTrace ⟨"u", "origin", "gh-pages", some "/c", true⟩
        [⟨"a.html", VContent.buffer⟩]
        ⟨[], [], 1, fun _ => true⟩ "TS")).tree ∧
    "old.html" ∉ (runFs "/c" ⟨["old.html"], ["old.html"]⟩
      (taskTrace ⟨"u", "origin", "gh-pages", some "/c", true⟩
        [⟨"a.html", VContent.buffer⟩]
        ⟨[], [], 1, fun _ => true⟩ "TS")).tracked :=
  (clear_before_write_and_stage ⟨"u", "origin", "gh-pages", some "/c", true⟩
    [⟨"a.html", VContent.buffer⟩] ⟨[], [], 1, fun _ => true⟩ "TS" "/c"
    (by decide)).2 ⟨["old.html"], ["old.html"]⟩ "old.html" (by decide)

/-- C5 counterexample: if the clock does not advance between the run's start
and the commit step (same millisecond), the commit message's timestamp
equals the start time, so it is not strictly greater. -/
theorem commitMsgStrictlyAfterStart_false : ¬ commitMsgStrictlyAfterStart := by
  intro hcl
  obtain ⟨-, hmsg⟩ := hcl ⟨"u", "origin", "gh-pages", none, true⟩
    [⟨"a.html", VContent.buffer⟩] ⟨[], [], 1, fun _ => true⟩
    epochTime epochTime (by decide) (by decide) (le_refl _)
    (by decide) (by decide)
  obtain ⟨-, t, hparse, hlt⟩ :=
    hmsg ("Update " ++ toISOString epochTime) (by decide)
  have ht : t = epochTime := by
    have hp2 : parseISO (("Update " ++ toISOString epochTime).drop 7) =
        some epochTime := by decide
    exact Option.some.inj (hparse.symm.trans hp2)
  rw [ht] at hlt
  exact absurd hlt (lt_irrefl _)

/-- C5 amended: in every non-empty-staged run, exactly one commit is
created, and its message is `"Update "` followed by the commit-time clock
reading rendered as a valid ISO-8601 UTC timestamp, which is greater than
or equal to the run's start time (equality occurs when the millisecond
clock has not advanced). -/
theorem commit_message_timestamp (cfg : Config) (fps : List VFile)
    (env : RepoEnv) (start nowT : UTCTime)
    (_hvs : validTime start) (hvn : validTime nowT)
    (hmono : timeKey start ≤ timeKey nowT)
    (h : fps.length ≠ 0) (hs : env.stagedCount ≠ 0) :
    commitCount (taskTrace cfg fps env (toISOString nowT)) = 1 ∧
    ∀ msg, Op.commit msg ∈ taskTrace cfg fps env (toISOString nowT) →
      ∃ t : UTCTime, msg = "Update " ++ toISOString t ∧
        parseISO (toISOString t) = some t ∧
        isValidISO (toISOString t) = true ∧
        timeKey start ≤ timeKey t := by
  constructor
  · rw [taskTrace, if_neg h]
    simp only [branchOps]
    split_ifs <;>
      simp_all [commitCount, List.countP_append, List.countP_cons,
        List.countP_map, Function.comp]
  · intro msg hx
    have hmsg : msg = "Update " ++ toISOString nowT := by
      rw [taskTrace, if_neg h] at hx
      simp only [branchOps] at hx
      split_ifs at hx <;> simp_all
    exact ⟨nowT, hmsg, parseISO_toISOString hvn,
      by rw [isValidISO, parseISO_toISOString hvn]; rfl, hmono⟩

/-- C5 amended witness: a run starting at the epoch whose commit happens one
millisecond later. -/
theorem commit_message_timestamp_witness :
    commitCount (taskTrace ⟨"u", "origin", "gh-pages", none, true⟩
      [⟨"a.html", VContent.buffer⟩] ⟨[], [], 1, fun _ => true⟩
      (toISOString ⟨1970, 1, 1, 0, 0, 0, 1⟩)) = 1 ∧
    ∃ t : UTCTime,
      "Update " ++ toISOString ⟨1970, 1, 1, 0, 0, 0, 1⟩ =
        "Update " ++ toISOString t ∧
      parseISO (toISOString t) = some t ∧
      isValidISO (toISOString t) = true ∧
      timeKey epochTime ≤ timeKey t :=
  have h := commit_message_timestamp ⟨"u", "origin", "gh-pages", none, true⟩
    [⟨"a.html", VContent.buffer⟩] ⟨[], [], 1, fun _ => true⟩
    epochTime ⟨1970, 1, 1, 0, 0, 0, 1⟩ (by decide) (by decide) (by decide)
    (by decide) (by decide)
  ⟨h.1, h.2 ("Update " ++ toISOString ⟨1970, 1, 1, 0, 0, 0, 1⟩) (by decide)⟩

